import Mathlib

/-!
Verification development for the audio playback core of `sigproc.py`
(class `SoundThread` and the playback-control methods of `MainWindow`).

The chunk loop of `SoundThread.run` is embedded as a small-step transition
system.  One execution step is either

* one micro-step of the chunk-loop thread (`loopStep`), i.e. one of the
  atomic actions the Python loop performs: the `while self.restart` test,
  fetching the next chunk, the `if not self.running or self.restart`
  test, `stream.write`, `self.sig_frame.emit`, the unlocked `if
  self.paused` test, `mutex.lock()`, `pause_cond.wait(mutex)` (which
  atomically releases the mutex and blocks), and the matching unlock; or

* one action of the UI/control thread (`ctrlApply`): the slot bodies
  `SoundThread.play_at` / `pause` / `stop` (plain unlocked flag writes,
  exactly as in the source) and the `lock(); wakeAll(); unlock()`
  sequence that `MainWindow.sound_stop` and the resume branch of
  `MainWindow.sound_pause` perform.  A wake is only enabled while the
  loop thread does not hold the mutex, exactly as a real lock blocks.

The interleaving is given explicitly by an agenda (`List Cmd`): `Cmd.tau`
lets the loop thread take one micro-step, any other entry is a control
action; a control action that is blocked on the mutex waits (the loop
steps instead) until it becomes enabled.

All times are in milliseconds (the Python code converts the float
`start_at` seconds to a pydub millisecond index with `start_at * 1000`
and advances `current_time` by `0.05` seconds = one 50 ms chunk per
write; we keep the exact integer arithmetic).  An audio of duration `D`
milliseconds sliced at `pstart` yields `make_chunks(sound[pstart:], 50)`,
i.e. `ceil((D - pstart)/50)` chunks, all of 50 ms except a possibly
shorter last one.
-/

namespace SigProc

/-- Chunk length in ms: `make_chunks(self.sound[start:], 50)` in `run`. -/
def chunkMs : ℕ := 50

/-- Number of chunks produced by `make_chunks` on a segment of `segLen`
milliseconds: `ceil(segLen / 50)`. -/
def numChunks (segLen : ℕ) : ℕ := (segLen + chunkMs - 1) / chunkMs

/-- Length in ms of chunk `i` of a `segLen` ms segment (the last chunk may
be shorter than `chunkMs`). -/
def chunkSize (segLen i : ℕ) : ℕ := min chunkMs (segLen - chunkMs * i)

/-- Observable events of one playback session. -/
inductive Ev
  | openDev                 -- `p.open(...)` at the top of `run`
  | write (pos len : ℕ)     -- `stream.write(chunk._data)`
  | tick (t : ℕ)            -- `self.sig_frame.emit(current_time)`
  | closeDev                -- `stream.close()` / `p.terminate()`
  | done                    -- the `finished` signal after `run` returns
deriving DecidableEq, Repr

/-- Program counter of the chunk-loop thread inside `SoundThread.run`. -/
inductive PC
  | whileCheck   -- about to test `while self.restart`
  | forNext      -- about to fetch the next chunk of the current pass
  | checkFlags   -- about to test `if not self.running or self.restart`
  | writeChunk   -- about to call `stream.write(chunk._data)`
  | emitTick     -- about to do `current_time += 0.05; sig_frame.emit(...)`
  | checkPaused  -- about to test `if self.paused` (no lock held)
  | lockStep     -- about to call `self.mutex.lock()`
  | waitStep     -- holds the mutex, about to call `pause_cond.wait(mutex)`
  | waiting      -- blocked inside `wait` (mutex released)
  | unlockStep   -- woken, holds the mutex again, about to unlock
  | closing      -- loop exited, about to `stream.close()`
  | emitDone     -- about to return from `run` (fires `finished`)
  | terminated   -- `run` has returned
deriving DecidableEq, Repr

/-- Shared state of one `SoundThread` session plus the loop thread's
locals (`start`/`current_time`/chunk index of the current pass). -/
structure SState where
  pc : PC
  running : Bool     -- `self.running`
  paused : Bool      -- `self.paused`
  restart : Bool     -- `self.restart`
  start_at : ℕ       -- `self.start_at`, ms
  pstart : ℕ         -- local `start` of the current pass, ms
  cur : ℕ            -- local `current_time`, ms
  idx : ℕ            -- index of the next chunk of the current pass
  holder : Bool      -- the loop thread holds `self.mutex`
deriving DecidableEq, Repr

/-- One micro-step of the chunk-loop thread, for audio duration `D` ms.
Returns the next state and the events emitted by the step. -/
def loopStep (D : ℕ) (s : SState) : SState × List Ev :=
  match s.pc with
  | .whileCheck =>
      if s.restart then
        ({ s with restart := false, pstart := s.start_at, cur := s.start_at,
                  idx := 0, pc := .forNext }, [])
      else ({ s with pc := .closing }, [])
  | .forNext =>
      if s.idx < numChunks (D - s.pstart) then ({ s with pc := .checkFlags }, [])
      else ({ s with pc := .whileCheck }, [])
  | .checkFlags =>
      if !s.running || s.restart then ({ s with pc := .whileCheck }, [])
      else ({ s with pc := .writeChunk }, [])
  | .writeChunk =>
      ({ s with pc := .emitTick },
       [.write (s.pstart + chunkMs * s.idx) (chunkSize (D - s.pstart) s.idx)])
  | .emitTick =>
      ({ s with cur := s.cur + chunkMs, pc := .checkPaused },
       [.tick (s.cur + chunkMs)])
  | .checkPaused =>
      if s.paused then ({ s with pc := .lockStep }, [])
      else ({ s with idx := s.idx + 1, pc := .forNext }, [])
  | .lockStep => ({ s with holder := true, pc := .waitStep }, [])
  | .waitStep => ({ s with holder := false, pc := .waiting }, [])
  | .waiting => (s, [])
  | .unlockStep => ({ s with holder := false, idx := s.idx + 1, pc := .forNext }, [])
  | .closing => ({ s with pc := .emitDone }, [.closeDev])
  | .emitDone => ({ s with pc := .terminated }, [.done])
  | .terminated => (s, [])

/-- Agenda entries: `tau` schedules one loop-thread micro-step, the others
are the control-thread actions (slot bodies and the wake sequence). -/
inductive Cmd
  | tau                 -- let the chunk-loop thread take one micro-step
  | setRunFalse         -- `SoundThread.stop`: `self.running = False`
  | togglePaused        -- `SoundThread.pause`: `self.paused = not self.paused`
  | playAt (x : ℕ)      -- `SoundThread.play_at`: set offset, `restart = True`
  | wake                -- `mutex.lock(); pause_cond.wakeAll(); mutex.unlock()`
deriving DecidableEq, Repr

/-- A control action is enabled unless it needs the mutex while the loop
thread holds it: only `wake` takes the mutex. -/
def ctrlEnabled (s : SState) : Cmd → Bool
  | .wake => !s.holder
  | _ => true

/-- Effect of a control-thread action on the shared state.  None of the
flag mutations touches the mutex, mirroring the unlocked slot bodies in
the source; `wake` wakes a waiter blocked in `pause_cond.wait` (which
then reacquires the mutex before returning). -/
def ctrlApply (s : SState) : Cmd → SState
  | .setRunFalse => { s with running := false }
  | .togglePaused => { s with paused := !s.paused }
  | .playAt x => { s with start_at := x, restart := true }
  | .wake => if s.pc = .waiting then { s with pc := .unlockStep, holder := true } else s
  | .tau => s

/-- Does a control action mutate the shared session flags? -/
def mutatesFlags : Cmd → Bool
  | .setRunFalse | .togglePaused | .playAt _ => true
  | _ => false

/-- Does a control action acquire the session mutex?  In the source only
the `wakeAll` broadcasts in `MainWindow.sound_stop` / `sound_pause` are
bracketed by `mutex.lock()` / `mutex.unlock()`; the flag mutations in
`SoundThread.play_at` / `pause` / `stop` are not. -/
def usesMutex : Cmd → Bool
  | .wake => true
  | _ => false

/-- One step of the whole system: the head of the agenda is performed if
it is a control action that is enabled; a blocked control action waits
(the loop thread steps instead); `tau` and an empty agenda also give the
loop thread one micro-step. -/
def stepSys (D : ℕ) (s : SState) : List Cmd → SState × List Cmd × List Ev
  | [] => ((loopStep D s).1, [], (loopStep D s).2)
  | .tau :: rest => ((loopStep D s).1, rest, (loopStep D s).2)
  | c :: rest =>
      if ctrlEnabled s c then (ctrlApply s c, rest, [])
      else ((loopStep D s).1, c :: rest, (loopStep D s).2)

/-- Run `fuel` system steps, collecting the emitted events in order. -/
def exec (D : ℕ) : ℕ → SState → List Cmd → SState × List Cmd × List Ev
  | 0, s, cmds => (s, cmds, [])
  | fuel + 1, s, cmds =>
      let r := stepSys D s cmds
      let r' := exec D fuel r.1 r.2.1
      (r'.1, r'.2.1, r.2.2 ++ r'.2.2)

/-- State right after `SoundThread.__init__` and the top of `run`:
`running = True`, `paused = False`, `restart = True` ("Start on True for
first start"), requested offset `x` ms. -/
def initState (x : ℕ) : SState :=
  ⟨.whileCheck, true, false, true, x, 0, 0, 0, false⟩

/-- Event trace of a whole session: `run` unconditionally opens the
output device once, then enters the restart loop. -/
def sessionTrace (D fuel x : ℕ) (cmds : List Cmd) : List Ev :=
  Ev.openDev :: (exec D fuel (initState x) cmds).2.2

/-- Agenda fragment of `MainWindow.sound_stop`: emit the `stop` signal
(directly connected, so `self.running = False` runs at once), then
`lock(); wakeAll(); unlock()`. -/
def sound_stopCmds : List Cmd := [.setRunFalse, .wake]

/-- Agenda fragment of the resume branch of `MainWindow.sound_pause`:
emit the `pause` signal (toggling `self.paused`), then
`lock(); wakeAll(); unlock()`. -/
def sound_pauseResumeCmds : List Cmd := [.togglePaused, .wake]

/-- The `write` events of a trace. -/
def writesOf (tr : List Ev) : List Ev :=
  tr.filter fun e => match e with | .write _ _ => true | _ => false

/-- The payloads of the `tick` events of a trace. -/
def ticksOf (tr : List Ev) : List ℕ :=
  tr.filterMap fun e => match e with | .tick t => some t | _ => none

/-- The first `m` chunk writes of a pass starting at offset `x` of a
`D` ms audio: consecutive chunks, each written exactly once, in order. -/
def chunkWrites (D x m : ℕ) : List Ev :=
  (List.range m).map fun i => Ev.write (x + chunkMs * i) (chunkSize (D - x) i)

/-- Number of chunks already written in state `s`: the chunk index, plus
one while the loop is between its `stream.write` and the increment of
the index. -/
def writtenCount (s : SState) : ℕ :=
  s.idx + (match s.pc with
    | .emitTick | .checkPaused | .lockStep | .waitStep | .waiting | .unlockStep => 1
    | _ => 0)

/-- Events of an undisturbed pass over chunks `idx, idx+1, ...` (`k` of
them) starting at offset `x` of a `D` ms audio, followed by the closing
events. -/
def passEvs (D x : ℕ) : ℕ → ℕ → List Ev
  | 0, _ => []
  | k + 1, idx =>
      Ev.write (x + chunkMs * idx) (chunkSize (D - x) idx)
        :: Ev.tick (x + chunkMs * (idx + 1)) :: passEvs D x k (idx + 1)

/-! ## Facade model: the playback-control state of `MainWindow` -/

/-- The control flags of a `SoundThread` object as the facade sees them. -/
structure Ctl where
  running : Bool
  paused : Bool
  restart : Bool
  start_at : ℕ
deriving DecidableEq, Repr

/-- `SoundThread.__init__(sound, start_at, mutex, pause_cond)`. -/
def SoundThread_init (x : ℕ) : Ctl := ⟨true, false, true, x⟩

/-- `SoundThread.play_at(start_at)`. -/
def play_at (c : Ctl) (x : ℕ) : Ctl := { c with start_at := x, restart := true }

/-- `SoundThread.pause()` (a toggle). -/
def pauseSlot (c : Ctl) : Ctl := { c with paused := !c.paused }

/-- `SoundThread.stop()`. -/
def stopSlot (c : Ctl) : Ctl := { c with running := false }

/-- Playback-related fields of `MainWindow`. -/
structure MW where
  loaded : Bool                 -- `is_signal_loaded()`
  sound_thread : Option Ctl     -- `self.sound_thread`
  sound_paused : Bool           -- `self.sound_paused`
  sound_start_at : ℕ            -- `self.sound_start_at`, ms
deriving DecidableEq, Repr

/-- What `MainWindow.sound_play` did. -/
inductive PlayEff
  | redirect (x : ℕ)   -- emitted `sig_sound_play_at` to the live thread
  | spawn (x : ℕ)      -- created and started a new `SoundThread`
  | noop               -- no thread and no signal loaded
deriving DecidableEq, Repr

/-- `MainWindow.sound_play`: redirect the live session if there is one,
otherwise start a fresh `SoundThread` if a signal is loaded. -/
def sound_play (mw : MW) : MW × PlayEff :=
  match mw.sound_thread with
  | some c =>
      ({ mw with sound_thread := some (play_at c mw.sound_start_at) },
       .redirect mw.sound_start_at)
  | none =>
      if mw.loaded then
        ({ mw with sound_thread := some (SoundThread_init mw.sound_start_at) },
         .spawn mw.sound_start_at)
      else (mw, .noop)

/-- `MainWindow.sound_pause` (a toggle): emits the `pause` signal, wakes
the wait condition when resuming, and flips `self.sound_paused`. -/
def sound_pause (mw : MW) : MW :=
  { mw with sound_thread := mw.sound_thread.map pauseSlot,
            sound_paused := !mw.sound_paused }

/-- `MainWindow.sound_stop`: emits the `stop` signal and wakes the wait
condition; touches no other facade field. -/
def sound_stop (mw : MW) : MW :=
  { mw with sound_thread := mw.sound_thread.map stopSlot }

/-- `MainWindow.on_sound_done`: clears the thread handle, re-enables the
UI (`update_ui(False)`); `self.sound_paused` is not assigned. -/
def on_sound_done (mw : MW) : MW := { mw with sound_thread := none }

/-! ## General lemmas about `exec` -/

theorem exec_zero (D : ℕ) (s : SState) (cmds : List Cmd) :
    exec D 0 s cmds = (s, cmds, []) := rfl

theorem exec_succ (D fuel : ℕ) (s : SState) (cmds : List Cmd) :
    exec D (fuel + 1) s cmds =
      ((exec D fuel (stepSys D s cmds).1 (stepSys D s cmds).2.1).1,
       (exec D fuel (stepSys D s cmds).1 (stepSys D s cmds).2.1).2.1,
       (stepSys D s cmds).2.2 ++
         (exec D fuel (stepSys D s cmds).1 (stepSys D s cmds).2.1).2.2) := rfl

/-- Splitting an execution: `a + b` steps are `a` steps followed by `b`
steps, traces concatenated. -/
theorem exec_add (D a b : ℕ) (s : SState) (cmds : List Cmd) :
    exec D (a + b) s cmds =
      ((exec D b (exec D a s cmds).1 (exec D a s cmds).2.1).1,
       (exec D b (exec D a s cmds).1 (exec D a s cmds).2.1).2.1,
       (exec D a s cmds).2.2 ++
         (exec D b (exec D a s cmds).1 (exec D a s cmds).2.1).2.2) := by
  induction a generalizing s cmds with
  | zero => simp [exec_zero]
  | succ a ih =>
      have h1 : a + 1 + b = (a + b) + 1 := by omega
      rw [h1, exec_succ, exec_succ, ih]
      simp [List.append_assoc]

/-- A state on which the loop micro-step is a silent fixpoint (a state
blocked in `pause_cond.wait`, or one where `run` has returned) never
moves and never emits again once the agenda is exhausted. -/
theorem noAgenda_fix (D fuel : ℕ) (s : SState) (h : loopStep D s = (s, [])) :
    exec D fuel s [] = (s, [], []) := by
  induction fuel with
  | zero => rfl
  | succ fuel ih =>
      have hstep : stepSys D s [] = (s, [], []) := by
        simp [stepSys, h]
      rw [exec_succ, hstep]
      simp [ih]

/-- A state blocked inside `pause_cond.wait` with an exhausted agenda
never moves and never emits again: the lost-wakeup deadlock is final. -/
theorem waiting_stuck (D fuel : ℕ) (s : SState) (h : s.pc = .waiting) :
    exec D fuel s [] = (s, [], []) :=
  noAgenda_fix D fuel s (by simp [loopStep, h])

/-- Once `run` has returned, no step changes the state's pc and no event
is ever emitted again, whatever the agenda still holds. -/
theorem terminated_absorb (D fuel : ℕ) (s : SState) (cmds : List Cmd)
    (h : s.pc = .terminated) :
    (exec D fuel s cmds).1.pc = .terminated ∧ (exec D fuel s cmds).2.2 = [] := by
  induction fuel generalizing s cmds with
  | zero => simp [exec_zero, h]
  | succ fuel ih =>
      rw [exec_succ]
      have hk : (stepSys D s cmds).1.pc = .terminated ∧ (stepSys D s cmds).2.2 = [] := by
        match cmds with
        | [] => simp [stepSys, loopStep, h]
        | .tau :: rest => simp [stepSys, loopStep, h]
        | .setRunFalse :: rest => simp [stepSys, ctrlEnabled, ctrlApply, h]
        | .togglePaused :: rest => simp [stepSys, ctrlEnabled, ctrlApply, h]
        | .playAt x :: rest => simp [stepSys, ctrlEnabled, ctrlApply, h]
        | .wake :: rest =>
            by_cases hh : s.holder <;>
              simp [stepSys, ctrlEnabled, ctrlApply, h, hh, loopStep]
      have := ih (stepSys D s cmds).1 (stepSys D s cmds).2.1 hk.1
      simp [this, hk.2]

/-- Invariant-preservation principle: a property of state and trace that
is preserved by every allowed control action and by every loop
micro-step holds along any execution whose agenda only holds allowed
commands. -/
theorem exec_preserve (D : ℕ) (P : SState → List Ev → Prop) (ok : Cmd → Prop)
    (hc : ∀ s tr c, ok c → P s tr → P (ctrlApply s c) tr)
    (hl : ∀ s tr, P s tr → P (loopStep D s).1 (tr ++ (loopStep D s).2)) :
    ∀ fuel s cmds tr, (∀ c ∈ cmds, ok c) → P s tr →
      P (exec D fuel s cmds).1 (tr ++ (exec D fuel s cmds).2.2) := by
  intro fuel
  induction fuel with
  | zero => intro s cmds tr _ hP; simpa [exec_zero] using hP
  | succ fuel ih =>
      intro s cmds tr hok hP
      rw [exec_succ]
      have key : P (stepSys D s cmds).1 (tr ++ (stepSys D s cmds).2.2) ∧
          (∀ c ∈ (stepSys D s cmds).2.1, ok c) := by
        match cmds with
        | [] =>
            refine ⟨?_, by simp [stepSys]⟩
            simpa [stepSys] using hl s tr hP
        | .tau :: rest =>
            refine ⟨?_, ?_⟩
            · simpa [stepSys] using hl s tr hP
            · intro c hcmem
              exact hok c (by simp [stepSys] at hcmem; simp [hcmem])
        | .setRunFalse :: rest =>
            refine ⟨?_, ?_⟩
            · simpa [stepSys, ctrlEnabled] using
                hc s tr _ (hok _ (by simp)) hP
            · intro c hcmem
              exact hok c (by simp [stepSys, ctrlEnabled] at hcmem; simp [hcmem])
        | .togglePaused :: rest =>
            refine ⟨?_, ?_⟩
            · simpa [stepSys, ctrlEnabled] using
                hc s tr _ (hok _ (by simp)) hP
            · intro c hcmem
              exact hok c (by simp [stepSys, ctrlEnabled] at hcmem; simp [hcmem])
        | .playAt x :: rest =>
            refine ⟨?_, ?_⟩
            · simpa [stepSys, ctrlEnabled] using
                hc s tr _ (hok _ (by simp)) hP
            · intro c hcmem
              exact hok c (by simp [stepSys, ctrlEnabled] at hcmem; simp [hcmem])
        | .wake :: rest =>
            by_cases hh : s.holder
            · refine ⟨?_, ?_⟩
              · simpa [stepSys, ctrlEnabled, hh] using hl s tr hP
              · intro c hcmem
                simp [stepSys, ctrlEnabled, hh] at hcmem
                exact hok c (by simp [hcmem])
            · refine ⟨?_, ?_⟩
              · simpa [stepSys, ctrlEnabled, hh] using
                  hc s tr _ (hok _ (by simp)) hP
              · intro c hcmem
                simp [stepSys, ctrlEnabled, hh] at hcmem
                exact hok c (by simp [hcmem])
      have := ih (stepSys D s cmds).1 (stepSys D s cmds).2.1
        (tr ++ (stepSys D s cmds).2.2) key.2 key.1
      simpa [List.append_assoc] using this

/-- One step peeled off the front of an execution. -/
theorem exec_one_cons (D m : ℕ) (s : SState) (cmds : List Cmd) :
    exec D (1 + m) s cmds =
      ((exec D m (stepSys D s cmds).1 (stepSys D s cmds).2.1).1,
       (exec D m (stepSys D s cmds).1 (stepSys D s cmds).2.1).2.1,
       (stepSys D s cmds).2.2 ++
         (exec D m (stepSys D s cmds).1 (stepSys D s cmds).2.1).2.2) := by
  rw [Nat.add_comm, exec_succ]

/-! ## C1: stop while paused -/

/-- Interleaving that pauses the session after its first chunk, lets the
loop pass the unlocked `if self.paused` test, and only then runs the
whole of `MainWindow.sound_stop`. -/
def c1Agenda : List Cmd :=
  [.tau, .tau, .tau, .tau, .tau, .togglePaused, .tau] ++ sound_stopCmds

/-- The configuration the session reaches under `c1Agenda`. -/
def c1Stuck : SState := (exec 100 11 (initState 0) c1Agenda).1

/-- C1: the claim that a `stop()` issued while the session is paused can
never leave the loop blocked (no lost wakeup) fails on the code: if the
whole of `sound_stop` (including its locked `wakeAll`) runs between the
loop's unlocked `if self.paused` check and its `pause_cond.wait`, the
wakeup is lost and the loop then blocks in the wait forever with
`running = False` — the spec's required stop-wakes-pause guarantee does
not hold on this reachable interleaving. -/
theorem C1_stop_while_paused_lost_wakeup :
    c1Stuck.pc = .waiting ∧ c1Stuck.running = false ∧ c1Stuck.paused = true ∧
      (exec 100 11 (initState 0) c1Agenda).2.1 = [] ∧
      ∀ k, exec 100 k c1Stuck [] = (c1Stuck, [], []) :=
  ⟨by decide, by decide, by decide, by decide,
   fun k => waiting_stuck 100 k c1Stuck (by decide)⟩

/-! ## C3: locking discipline of the shared flags -/

/-- Interleaving that pauses the session, lets the loop pass the
unlocked `if self.paused` test, and then runs the whole resume branch of
`MainWindow.sound_pause` (toggle back plus locked `wakeAll`). -/
def c3Agenda : List Cmd :=
  [.tau, .tau, .tau, .tau, .tau, .togglePaused, .tau] ++ sound_pauseResumeCmds

/-- The configuration the session reaches under `c3Agenda`. -/
def c3Stuck : SState := (exec 100 11 (initState 0) c3Agenda).1

/-- C3 counterexample: the claimed consequence "no stop or resume signal
is ever lost between the loop's flag check and its wait" is false.  The
resume (pause-toggle plus locked `wakeAll`) completes between the loop's
unlocked `if self.paused` check and its wait; the loop then blocks with
`paused = False` and `running = True` and is still blocked 1000 steps
later: the resume signal was lost. -/
theorem C3_cex_resume_signal_lost :
    c3Stuck.pc = .waiting ∧ c3Stuck.paused = false ∧ c3Stuck.running = true ∧
      (exec 100 11 (initState 0) c3Agenda).2.1 = [] ∧
      exec 100 1000 c3Stuck [] = (c3Stuck, [], []) :=
  ⟨by decide, by decide, by decide, by decide,
   waiting_stuck 100 1000 c3Stuck (by decide)⟩

/-! ## C10: no writes after stop -/

/-- Interleaving under which `SoundThread.stop` runs after the loop's
per-chunk flag check has already passed but before `stream.write`. -/
def c10Agenda : List Cmd := [.tau, .tau, .tau, .setRunFalse]

/-- C10 counterexample: "once stop() has set the running flag to false,
no further chunk is ever written" is false as stated: if the stop lands
after the per-chunk check and before `stream.write`, that chunk is still
written — after 4 steps `running` is already false with the loop about
to write, and the next step emits a device write. -/
theorem C10_cex_write_after_stop :
    (exec 100 4 (initState 0) c10Agenda).1.running = false ∧
      (exec 100 4 (initState 0) c10Agenda).1.pc = .writeChunk ∧
      writesOf (exec 100 4 (initState 0) c10Agenda).2.2 = [] ∧
      writesOf (exec 100 5 (initState 0) c10Agenda).2.2 = [Ev.write 0 50] := by
  decide

/-! ## C7: offset beyond the audio duration -/

/-- C7: playing from an offset beyond the audio duration yields an empty
chunk partition: the loop writes no chunk, emits no progress tick,
immediately reaches Closing, and emits exactly one completion
notification, ending in the same terminal state as a normal
end-of-buffer run. -/
theorem C7_offset_beyond_duration (D x k : ℕ) (h : D < x) :
    sessionTrace D (5 + k) x [] = [Ev.openDev, Ev.closeDev, Ev.done] ∧
      writesOf (sessionTrace D (5 + k) x []) = [] ∧
      ticksOf (sessionTrace D (5 + k) x []) = [] ∧
      (sessionTrace D (5 + k) x []).count Ev.done = 1 ∧
      (exec D (5 + k) (initState x) []).1.pc = .terminated := by
  have hseg : D - x = 0 := by omega
  have h0 : numChunks (D - x) = 0 := by
    rw [hseg]; decide
  have e1 : stepSys D (initState x) [] =
      (⟨.forNext, true, false, false, x, x, x, 0, false⟩, [], []) := by
    simp [stepSys, loopStep, initState]
  have e2 : stepSys D ⟨.forNext, true, false, false, x, x, x, 0, false⟩ [] =
      (⟨.whileCheck, true, false, false, x, x, x, 0, false⟩, [], []) := by
    simp [stepSys, loopStep, h0]
  have e3 : stepSys D ⟨.whileCheck, true, false, false, x, x, x, 0, false⟩ [] =
      (⟨.closing, true, false, false, x, x, x, 0, false⟩, [], []) := by
    simp [stepSys, loopStep]
  have e4 : stepSys D ⟨.closing, true, false, false, x, x, x, 0, false⟩ [] =
      (⟨.emitDone, true, false, false, x, x, x, 0, false⟩, [], [Ev.closeDev]) := by
    simp [stepSys, loopStep]
  have e5 : stepSys D ⟨.emitDone, true, false, false, x, x, x, 0, false⟩ [] =
      (⟨.terminated, true, false, false, x, x, x, 0, false⟩, [], [Ev.done]) := by
    simp [stepSys, loopStep]
  have h5 : exec D 5 (initState x) [] =
      (⟨.terminated, true, false, false, x, x, x, 0, false⟩, [],
        [Ev.closeDev, Ev.done]) := by
    rw [show (5 : ℕ) = 1 + 4 from rfl, exec_one_cons, e1]
    rw [show (4 : ℕ) = 1 + 3 from rfl, exec_one_cons, e2]
    rw [show (3 : ℕ) = 1 + 2 from rfl, exec_one_cons, e3]
    rw [show (2 : ℕ) = 1 + 1 from rfl, exec_one_cons, e4]
    rw [show (1 : ℕ) = 1 + 0 from rfl, exec_one_cons, e5]
    rw [exec_zero]
    simp
  have hfull : exec D (5 + k) (initState x) [] =
      (⟨.terminated, true, false, false, x, x, x, 0, false⟩, [],
        [Ev.closeDev, Ev.done]) := by
    rw [exec_add, h5]
    rw [noAgenda_fix D k ⟨.terminated, true, false, false, x, x, x, 0, false⟩ rfl]
    simp
  refine ⟨?_, ?_, ?_, ?_, ?_⟩ <;>
    simp [sessionTrace, hfull, writesOf, ticksOf]

/-- Witness for C7: `playFrom(10.0)` on a 4-second audio. -/
theorem C7_offset_beyond_duration_witness :
    4000 < 10000 ∧
      sessionTrace 4000 (5 + 0) 10000 [] = [Ev.openDev, Ev.closeDev, Ev.done] ∧
      (exec 4000 (5 + 0) (initState 10000) []).1.pc = .terminated :=
  ⟨by decide, (C7_offset_beyond_duration 4000 10000 0 (by decide)).1,
    (C7_offset_beyond_duration 4000 10000 0 (by decide)).2.2.2.2⟩

/-! ## C4: per-chunk processing order -/

/-- C4: at every per-chunk check the loop first honours a stop (reaching
Closing without any further event), then a restart (clearing the restart
flag and restarting the iteration at the newly requested offset with the
rest of the current partition discarded), and otherwise writes the chunk
to the device, then emits one progress tick carrying the elapsed time,
and only then, if paused, blocks on the wait condition, from which a
wake (resume or stop) releases it. -/
theorem C4_chunk_processing_order (D : ℕ) (s t : SState)
    (hpc : s.pc = .checkFlags) (hhold : s.holder = false)
    (ht : t.pc = .waiting) :
    (s.running = false → s.restart = false →
      exec D 2 s [] = ({ s with pc := .closing }, [], [])) ∧
    (s.running = false → s.restart = true →
      (((exec D 5 s []).1.pc = .closing ∧ (exec D 5 s []).2.2 = []) ∨
       ((exec D 4 s []).1.pc = .closing ∧ (exec D 4 s []).2.2 = []))) ∧
    (s.running = true → s.restart = true →
      exec D 2 s [] =
        ({ s with pc := .forNext, restart := false, pstart := s.start_at,
                  cur := s.start_at, idx := 0 }, [], [])) ∧
    (s.running = true → s.restart = false → s.paused = false →
      exec D 4 s [] =
        ({ s with pc := .forNext, idx := s.idx + 1, cur := s.cur + chunkMs }, [],
         [Ev.write (s.pstart + chunkMs * s.idx) (chunkSize (D - s.pstart) s.idx),
          Ev.tick (s.cur + chunkMs)])) ∧
    (s.running = true → s.restart = false → s.paused = true →
      exec D 6 s [] =
        ({ s with pc := .waiting, cur := s.cur + chunkMs }, [],
         [Ev.write (s.pstart + chunkMs * s.idx) (chunkSize (D - s.pstart) s.idx),
          Ev.tick (s.cur + chunkMs)])) ∧
    ctrlApply t .wake = { t with pc := .unlockStep, holder := true } := by
  obtain ⟨pc, running, paused, restart, start_at, pstart, cur, idx, holder⟩ := s
  simp only at hpc hhold
  subst hpc hhold
  refine ⟨?_, ?_, ?_, ?_, ?_, ?_⟩
  · intro h1 h2
    simp only at h1 h2
    subst h1 h2
    rw [show (2 : ℕ) = 1 + 1 from rfl, exec_one_cons]
    simp only [stepSys, loopStep]
    rw [show (1 : ℕ) = 1 + 0 from rfl, exec_one_cons]
    simp [stepSys, loopStep, exec_zero]
  · intro h1 h2
    simp only at h1 h2
    subst h1 h2
    have e1 : stepSys D ⟨.checkFlags, false, paused, true, start_at, pstart, cur, idx, false⟩ [] =
        (⟨.whileCheck, false, paused, true, start_at, pstart, cur, idx, false⟩, [], []) := by
      simp [stepSys, loopStep]
    have e2 : stepSys D ⟨.whileCheck, false, paused, true, start_at, pstart, cur, idx, false⟩ [] =
        (⟨.forNext, false, paused, false, start_at, start_at, start_at, 0, false⟩, [], []) := by
      simp [stepSys, loopStep]
    by_cases hn : 0 < numChunks (D - start_at)
    · left
      have e3 : stepSys D ⟨.forNext, false, paused, false, start_at, start_at, start_at, 0, false⟩ [] =
          (⟨.checkFlags, false, paused, false, start_at, start_at, start_at, 0, false⟩, [], []) := by
        simp [stepSys, loopStep, hn]
      have e4 : stepSys D ⟨.checkFlags, false, paused, false, start_at, start_at, start_at, 0, false⟩ [] =
          (⟨.whileCheck, false, paused, false, start_at, start_at, start_at, 0, false⟩, [], []) := by
        simp [stepSys, loopStep]
      have e5 : stepSys D ⟨.whileCheck, false, paused, false, start_at, start_at, start_at, 0, false⟩ [] =
          (⟨.closing, false, paused, false, start_at, start_at, start_at, 0, false⟩, [], []) := by
        simp [stepSys, loopStep]
      rw [show (5 : ℕ) = 1 + 4 from rfl, exec_one_cons, e1]
      rw [show (4 : ℕ) = 1 + 3 from rfl, exec_one_cons, e2]
      rw [show (3 : ℕ) = 1 + 2 from rfl, exec_one_cons, e3]
      rw [show (2 : ℕ) = 1 + 1 from rfl, exec_one_cons, e4]
      rw [show (1 : ℕ) = 1 + 0 from rfl, exec_one_cons, e5]
      simp [exec_zero]
    · right
      have e3 : stepSys D ⟨.forNext, false, paused, false, start_at, start_at, start_at, 0, false⟩ [] =
          (⟨.whileCheck, false, paused, false, start_at, start_at, start_at, 0, false⟩, [], []) := by
        simp [stepSys, loopStep, hn]
      have e4 : stepSys D ⟨.whileCheck, false, paused, false, start_at, start_at, start_at, 0, false⟩ [] =
          (⟨.closing, false, paused, false, start_at, start_at, start_at, 0, false⟩, [], []) := by
        simp [stepSys, loopStep]
      rw [show (4 : ℕ) = 1 + 3 from rfl, exec_one_cons, e1]
      rw [show (3 : ℕ) = 1 + 2 from rfl, exec_one_cons, e2]
      rw [show (2 : ℕ) = 1 + 1 from rfl, exec_one_cons, e3]
      rw [show (1 : ℕ) = 1 + 0 from rfl, exec_one_cons, e4]
      simp [exec_zero]
  · intro h1 h2
    simp only at h1 h2
    subst h1 h2
    rw [show (2 : ℕ) = 1 + 1 from rfl, exec_one_cons]
    simp only [stepSys, loopStep]
    rw [show (1 : ℕ) = 1 + 0 from rfl, exec_one_cons]
    simp [stepSys, loopStep, exec_zero]
  · intro h1 h2 h3
    simp only at h1 h2 h3
    subst h1 h2 h3
    have e1 : stepSys D ⟨.checkFlags, true, false, false, start_at, pstart, cur, idx, false⟩ [] =
        (⟨.writeChunk, true, false, false, start_at, pstart, cur, idx, false⟩, [], []) := by
      simp [stepSys, loopStep]
    have e2 : stepSys D ⟨.writeChunk, true, false, false, start_at, pstart, cur, idx, false⟩ [] =
        (⟨.emitTick, true, false, false, start_at, pstart, cur, idx, false⟩, [],
         [Ev.write (pstart + chunkMs * idx) (chunkSize (D - pstart) idx)]) := by
      simp [stepSys, loopStep]
    have e3 : stepSys D ⟨.emitTick, true, false, false, start_at, pstart, cur, idx, false⟩ [] =
        (⟨.checkPaused, true, false, false, start_at, pstart, cur + chunkMs, idx, false⟩, [],
         [Ev.tick (cur + chunkMs)]) := by
      simp [stepSys, loopStep]
    have e4 : stepSys D ⟨.checkPaused, true, false, false, start_at, pstart, cur + chunkMs, idx, false⟩ [] =
        (⟨.forNext, true, false, false, start_at, pstart, cur + chunkMs, idx + 1, false⟩, [], []) := by
      simp [stepSys, loopStep]
    rw [show (4 : ℕ) = 1 + 3 from rfl, exec_one_cons, e1]
    rw [show (3 : ℕ) = 1 + 2 from rfl, exec_one_cons, e2]
    rw [show (2 : ℕ) = 1 + 1 from rfl, exec_one_cons, e3]
    rw [show (1 : ℕ) = 1 + 0 from rfl, exec_one_cons, e4]
    simp [exec_zero]
  · intro h1 h2 h3
    simp only at h1 h2 h3
    subst h1 h2 h3
    have e1 : stepSys D ⟨.checkFlags, true, true, false, start_at, pstart, cur, idx, false⟩ [] =
        (⟨.writeChunk, true, true, false, start_at, pstart, cur, idx, false⟩, [], []) := by
      simp [stepSys, loopStep]
    have e2 : stepSys D ⟨.writeChunk, true, true, false, start_at, pstart, cur, idx, false⟩ [] =
        (⟨.emitTick, true, true, false, start_at, pstart, cur, idx, false⟩, [],
         [Ev.write (pstart + chunkMs * idx) (chunkSize (D - pstart) idx)]) := by
      simp [stepSys, loopStep]
    have e3 : stepSys D ⟨.emitTick, true, true, false, start_at, pstart, cur, idx, false⟩ [] =
        (⟨.checkPaused, true, true, false, start_at, pstart, cur + chunkMs, idx, false⟩, [],
         [Ev.tick (cur + chunkMs)]) := by
      simp [stepSys, loopStep]
    have e4 : stepSys D ⟨.checkPaused, true, true, false, start_at, pstart, cur + chunkMs, idx, false⟩ [] =
        (⟨.lockStep, true, true, false, start_at, pstart, cur + chunkMs, idx, false⟩, [], []) := by
      simp [stepSys, loopStep]
    have e5 : stepSys D ⟨.lockStep, true, true, false, start_at, pstart, cur + chunkMs, idx, false⟩ [] =
        (⟨.waitStep, true, true, false, start_at, pstart, cur + chunkMs, idx, true⟩, [], []) := by
      simp [stepSys, loopStep]
    have e6 : stepSys D ⟨.waitStep, true, true, false, start_at, pstart, cur + chunkMs, idx, true⟩ [] =
        (⟨.waiting, true, true, false, start_at, pstart, cur + chunkMs, idx, false⟩, [], []) := by
      simp [stepSys, loopStep]
    rw [show (6 : ℕ) = 1 + 5 from rfl, exec_one_cons, e1]
    rw [show (5 : ℕ) = 1 + 4 from rfl, exec_one_cons, e2]
    rw [show (4 : ℕ) = 1 + 3 from rfl, exec_one_cons, e3]
    rw [show (3 : ℕ) = 1 + 2 from rfl, exec_one_cons, e4]
    rw [show (2 : ℕ) = 1 + 1 from rfl, exec_one_cons, e5]
    rw [show (1 : ℕ) = 1 + 0 from rfl, exec_one_cons, e6]
    simp [exec_zero]
  · simp [ctrlApply, ht]

/-- Witness for C4 at a concrete state: a 100 ms audio, the loop at the
per-chunk check of chunk 0 with all flags clear. -/
theorem C4_chunk_processing_order_witness :
    ((⟨.checkFlags, true, false, false, 0, 0, 0, 0, false⟩ : SState).pc = .checkFlags) ∧
    (exec 100 4 ⟨.checkFlags, true, false, false, 0, 0, 0, 0, false⟩ [] =
      (⟨.forNext, true, false, false, 0, 0, 50, 1, false⟩, [],
       [Ev.write 0 50, Ev.tick 50])) :=
  ⟨by decide, by
    have h := C4_chunk_processing_order 100
      ⟨.checkFlags, true, false, false, 0, 0, 0, 0, false⟩
      ⟨.waiting, true, true, false, 0, 0, 0, 0, false⟩ rfl rfl rfl
    have h4 := h.2.2.2.1 rfl rfl rfl
    simpa using h4⟩

/-! ## C2: at most one session, device opened once -/

/-- No system step ever emits a device-open event: `p.open` happens once
at the top of `run`, before the restart loop. -/
theorem openDev_not_emitted (D fuel : ℕ) (s : SState) (cmds : List Cmd) :
    Ev.openDev ∉ (exec D fuel s cmds).2.2 := by
  have h := exec_preserve D (fun _ tr => Ev.openDev ∉ tr) (fun _ => True)
    (by intro s tr c _ hP; exact hP)
    (by
      intro s tr hP
      cases hpc : s.pc <;>
        simp [loopStep, hpc, hP] <;> split_ifs <;> simp [hP])
    fuel s cmds [] (by intro c _; trivial) (by simp)
  simpa using h

/-- C2: while a session is alive, a play intent redirects it (sets its
requested offset and restart flag on the same `SoundThread`) instead of
creating a new thread, and the output device is opened exactly once per
session whatever control intents arrive. -/
theorem C2_single_session_single_open (D x fuel : ℕ) (cmds : List Cmd)
    (mw : MW) (c : Ctl) (halive : mw.sound_thread = some c) :
    (sessionTrace D fuel x cmds).count Ev.openDev = 1 ∧
      sound_play mw =
        ({ mw with sound_thread := some (play_at c mw.sound_start_at) },
          .redirect mw.sound_start_at) ∧
      (play_at c mw.sound_start_at).restart = true ∧
      (play_at c mw.sound_start_at).start_at = mw.sound_start_at := by
  refine ⟨?_, ?_, rfl, rfl⟩
  · have h := openDev_not_emitted D fuel (initState x) cmds
    simp [sessionTrace, List.count_cons, List.count_eq_zero.mpr h]
  · simp [sound_play, halive]

/-- Witness for C2: a live session being redirected, with a concrete
agenda holding two redirects. -/
theorem C2_single_session_single_open_witness :
    (sessionTrace 100 30 0 [.tau, .tau, .playAt 20, .tau, .playAt 0]).count Ev.openDev = 1 ∧
      sound_play ⟨true, some ⟨true, false, false, 0⟩, false, 70⟩ =
        (⟨true, some ⟨true, false, true, 70⟩, false, 70⟩, .redirect 70) := by
  have h := C2_single_session_single_open 100 0 30 [.tau, .tau, .playAt 20, .tau, .playAt 0]
    ⟨true, some ⟨true, false, false, 0⟩, false, 70⟩ ⟨true, false, false, 0⟩ rfl
  exact ⟨h.1, by simpa [play_at] using h.2.1⟩

/-! ## C9: the facade's paused flag survives session teardown -/

/-- C9: `on_sound_done` clears the thread handle but leaves the facade's
`sound_paused` flag as it was, so after pausing, stopping and completing
a session, the facade still reports paused while the next `sound_play`
spawns a thread whose own paused flag starts false — the two flags start
the new session with opposite values. -/
theorem C9_paused_flag_not_reset (mw : MW) (c : Ctl)
    (halive : mw.sound_thread = some c) (hnp : mw.sound_paused = false)
    (hl : mw.loaded = true) :
    (on_sound_done (sound_stop (sound_pause mw))).sound_paused = true ∧
      (on_sound_done (sound_stop (sound_pause mw))).sound_thread = none ∧
      (∀ mw' : MW, (on_sound_done mw').sound_paused = mw'.sound_paused) ∧
      (sound_play (on_sound_done (sound_stop (sound_pause mw)))).1.sound_thread =
        some (SoundThread_init mw.sound_start_at) ∧
      (SoundThread_init mw.sound_start_at).paused = false ∧
      (sound_play (on_sound_done (sound_stop (sound_pause mw)))).1.sound_paused = true := by
  refine ⟨?_, rfl, fun mw' => rfl, ?_, rfl, ?_⟩ <;>
    simp [sound_pause, sound_stop, on_sound_done, sound_play, SoundThread_init, hnp, hl]

/-- Witness for C9 at a concrete facade state. -/
theorem C9_paused_flag_not_reset_witness :
    (on_sound_done (sound_stop (sound_pause ⟨true, some ⟨true, false, false, 0⟩, false, 30⟩))).sound_paused = true ∧
      (sound_play (on_sound_done (sound_stop (sound_pause ⟨true, some ⟨true, false, false, 0⟩, false, 30⟩)))).1.sound_thread =
        some (SoundThread_init 30) ∧
      (SoundThread_init 30).paused = false := by
  have h := C9_paused_flag_not_reset ⟨true, some ⟨true, false, false, 0⟩, false, 30⟩
    ⟨true, false, false, 0⟩ rfl rfl rfl
  exact ⟨h.1, h.2.2.2.1, h.2.2.2.2.1⟩

/-! ## C6: completion notification -/

/-- Trace/state invariant tying the close and done events to the final
program points: before Closing has run neither event is in the trace;
after `stream.close()` the trace ends in the single close event; once
`run` has returned it ends in the close event followed by the single
completion event. -/
def closeDoneInv (s : SState) (tr : List Ev) : Prop :=
  (s.pc ≠ .emitDone ∧ s.pc ≠ .terminated ∧ Ev.closeDev ∉ tr ∧ Ev.done ∉ tr) ∨
  (s.pc = .emitDone ∧ ∃ t, tr = t ++ [Ev.closeDev] ∧ Ev.closeDev ∉ t ∧ Ev.done ∉ t) ∨
  (s.pc = .terminated ∧
    ∃ t, tr = t ++ [Ev.closeDev, Ev.done] ∧ Ev.closeDev ∉ t ∧ Ev.done ∉ t)

theorem closeDoneInv_exec (D fuel : ℕ) (s : SState) (cmds : List Cmd)
    (h : closeDoneInv s []) :
    closeDoneInv (exec D fuel s cmds).1 (exec D fuel s cmds).2.2 := by
  have key := exec_preserve D closeDoneInv (fun _ => True)
    (by
      intro s tr c _ hP
      rcases hP with ⟨h1, h2, h3, h4⟩ | ⟨h1, t, ht, h3, h4⟩ | ⟨h1, t, ht, h3, h4⟩
      · refine Or.inl ⟨?_, ?_, h3, h4⟩ <;>
          cases c <;> simp [ctrlApply, h1, h2] <;>
            split_ifs <;> simp_all
      · refine Or.inr (Or.inl ⟨?_, t, ht, h3, h4⟩)
        cases c <;> simp [ctrlApply, h1] <;> split_ifs <;> simp_all
      · refine Or.inr (Or.inr ⟨?_, t, ht, h3, h4⟩)
        cases c <;> simp [ctrlApply, h1] <;> split_ifs <;> simp_all)
    (by
      intro s tr hP
      rcases hP with ⟨h1, h2, h3, h4⟩ | ⟨h1, t, ht, h3, h4⟩ | ⟨h1, t, ht, h3, h4⟩
      · cases hpc : s.pc
        case closing =>
            exact Or.inr (Or.inl ⟨by simp [loopStep, hpc], tr,
              by simp [loopStep, hpc], h3, h4⟩)
        case emitDone => exact absurd hpc h1
        case terminated => exact absurd hpc h2
        all_goals (
          refine Or.inl ⟨?_, ?_, ?_, ?_⟩ <;>
            simp [loopStep, hpc, h3, h4] <;> split_ifs <;> simp_all)
      · refine Or.inr (Or.inr ⟨?_, t, ?_, h3, h4⟩)
        · simp [loopStep, h1]
        · simp [loopStep, h1, ht]
      · refine Or.inr (Or.inr ⟨?_, t, ?_, h3, h4⟩)
        · simp [loopStep, h1]
        · simp [loopStep, h1, ht])
    fuel s cmds [] (by intro c _; trivial) h
  simpa using key

/-- C6: whenever the session's `run` has returned, the completion
notification was emitted exactly once, as the very last event and right
after the single device-close event; and the facade's completion handler
clears the playing state so a subsequent play intent spawns a fresh
session instead of redirecting a dead one. -/
theorem C6_completion_once_after_close (D x fuel : ℕ) (cmds : List Cmd)
    (mw : MW)
    (hterm : (exec D fuel (initState x) cmds).1.pc = .terminated)
    (hl : mw.loaded = true) :
    (sessionTrace D fuel x cmds).count Ev.done = 1 ∧
      (sessionTrace D fuel x cmds).count Ev.closeDev = 1 ∧
      (sessionTrace D fuel x cmds).drop ((sessionTrace D fuel x cmds).length - 2) =
        [Ev.closeDev, Ev.done] ∧
      (on_sound_done mw).sound_thread = none ∧
      sound_play (on_sound_done mw) =
        ({ mw with sound_thread := some (SoundThread_init mw.sound_start_at) },
          .spawn mw.sound_start_at) := by
  have hinv := closeDoneInv_exec D fuel (initState x) cmds
    (Or.inl (by simp [initState]))
  rcases hinv with ⟨_, h2, _, _⟩ | ⟨h1, _, _, _⟩ | ⟨_, t, ht, hc, hd⟩
  · exact absurd hterm h2
  · rw [hterm] at h1; exact absurd h1 (by simp)
  · have hTr : sessionTrace D fuel x cmds =
        (Ev.openDev :: t) ++ [Ev.closeDev, Ev.done] := by
      simp [sessionTrace, ht]
    refine ⟨?_, ?_, ?_, rfl, ?_⟩
    · rw [hTr]
      simp [List.count_append, List.count_cons, List.count_eq_zero.mpr hd]
    · rw [hTr]
      simp [List.count_append, List.count_cons, List.count_eq_zero.mpr hc]
    · rw [hTr]
      have hlen : ((Ev.openDev :: t) ++ [Ev.closeDev, Ev.done]).length - 2 =
          (Ev.openDev :: t).length := by simp
      rw [hlen, List.drop_left]
    · simp [sound_play, on_sound_done, hl]

/-- Witness for C6: the undisturbed 100 ms session, which terminates in
15 steps, against a concrete loaded facade state. -/
theorem C6_completion_once_after_close_witness :
    (sessionTrace 100 15 0 []).count Ev.done = 1 ∧
      (sessionTrace 100 15 0 []).drop ((sessionTrace 100 15 0 []).length - 2) =
        [Ev.closeDev, Ev.done] ∧
      sound_play (on_sound_done ⟨true, some ⟨true, true, false, 0⟩, true, 40⟩) =
        (⟨true, some (SoundThread_init 40), true, 40⟩, .spawn 40) := by
  have h := C6_completion_once_after_close 100 0 15 []
    ⟨true, some ⟨true, true, false, 0⟩, true, 40⟩ (by decide) rfl
  exact ⟨h.1, h.2.2.1, by simpa [on_sound_done] using h.2.2.2.2⟩

/-! ## C8: pause/resume loses and duplicates nothing -/

/-- Agenda entries other than a redirect. -/
def noPlay : Cmd → Bool
  | .playAt _ => false
  | _ => true

theorem writesOf_append (tr tr' : List Ev) :
    writesOf (tr ++ tr') = writesOf tr ++ writesOf tr' := by
  simp [writesOf]

theorem writesOf_tick1 (t : ℕ) : writesOf [Ev.tick t] = [] := rfl

theorem writesOf_close1 : writesOf [Ev.closeDev] = [] := rfl

theorem writesOf_done1 : writesOf [Ev.done] = [] := rfl

theorem chunkWrites_succ (D x m : ℕ) :
    chunkWrites D x (m + 1) =
      chunkWrites D x m ++ [Ev.write (x + chunkMs * m) (chunkSize (D - x) m)] := by
  simp [chunkWrites, List.range_succ]

/-- The chunk writes of a pass target pairwise distinct positions. -/
theorem chunkWrites_nodup (D x m : ℕ) : (chunkWrites D x m).Nodup := by
  refine List.Nodup.map ?_ (List.nodup_range m)
  intro i j hij
  simp only [Ev.write.injEq, chunkMs] at hij
  omega

/-- Without any redirect, the device writes of a session are always the
consecutive chunks `0, 1, ...` of the single pass starting at the
requested offset, each written exactly once, in order. -/
theorem writes_consecutive (D x fuel : ℕ) (cmds : List Cmd)
    (hok : ∀ c ∈ cmds, noPlay c = true) :
    writesOf (exec D fuel (initState x) cmds).2.2 =
      chunkWrites D x (writtenCount (exec D fuel (initState x) cmds).1) := by
  have key := exec_preserve D
    (fun s tr => s.start_at = x ∧
      ((s.restart = true ∧ s.pc = .whileCheck ∧ s.idx = 0 ∧ writesOf tr = []) ∨
       (s.restart = false ∧ s.pstart = x ∧
         writesOf tr = chunkWrites D x (writtenCount s))))
    (fun c => noPlay c = true)
    (by
      intro s tr c hc hP
      obtain ⟨hx, hP⟩ := hP
      cases c
      case tau => exact ⟨hx, hP⟩
      case setRunFalse => exact ⟨hx, hP⟩
      case togglePaused => exact ⟨hx, hP⟩
      case playAt y => simp [noPlay] at hc
      case wake =>
        by_cases hw : s.pc = .waiting
        · rcases hP with ⟨a, b, d, e⟩ | ⟨a, b, d⟩
          · rw [b] at hw; exact absurd hw (by simp)
          · refine ⟨by simp [ctrlApply, hw, hx],
              Or.inr ⟨by simp [ctrlApply, hw, a], by simp [ctrlApply, hw, b], ?_⟩⟩
            have hwc : writtenCount (ctrlApply s Cmd.wake) = writtenCount s := by
              simp [ctrlApply, hw, writtenCount]
            rw [hwc]; exact d
        · have heq : ctrlApply s Cmd.wake = s := by simp [ctrlApply, hw]
          rw [heq]; exact ⟨hx, hP⟩)
    (by
      intro s tr hP
      obtain ⟨pc, running, paused, restart, start_at, pstart, cur, idx, holder⟩ := s
      obtain ⟨hx, hP⟩ := hP
      simp only at hx
      subst hx
      rcases hP with ⟨a, b, d, e⟩ | ⟨a, b, d⟩
      · -- initial configuration: `while self.restart` resets the pass
        simp only at a b d
        subst a b d
        refine ⟨by simp [loopStep], Or.inr ⟨?_, ?_, ?_⟩⟩ <;>
          simp [loopStep, writtenCount, writesOf_append, e, chunkWrites]
      · -- a pass with the restart flag down
        simp only at a b
        subst a b
        cases pc
        case writeChunk =>
            refine ⟨by simp [loopStep], Or.inr ⟨by simp [loopStep], by simp [loopStep], ?_⟩⟩
            simp only [loopStep]
            simpa [writtenCount, writesOf_append, writesOf, chunkWrites_succ] using d
        case forNext =>
            refine ⟨?_, Or.inr ⟨?_, ?_, ?_⟩⟩ <;>
              (simp only [loopStep]; split_ifs <;>
                simpa [writtenCount, writesOf_append, writesOf] using d)
        case checkFlags =>
            refine ⟨?_, Or.inr ⟨?_, ?_, ?_⟩⟩ <;>
              (simp only [loopStep]; split_ifs <;>
                simpa [writtenCount, writesOf_append, writesOf] using d)
        case checkPaused =>
            refine ⟨?_, Or.inr ⟨?_, ?_, ?_⟩⟩ <;>
              (simp only [loopStep]; split_ifs <;>
                simpa [writtenCount, writesOf_append, writesOf] using d)
        all_goals (
          refine ⟨by simp [loopStep], Or.inr ⟨by simp [loopStep], by simp [loopStep], ?_⟩⟩
          simp only [loopStep]
          simpa [writtenCount, writesOf_append, writesOf] using d))
    fuel (initState x) cmds [] hok
    (by simp [initState, writesOf])
  rcases key with ⟨_, ⟨_, hpcw, hidx, he⟩ | ⟨_, _, he⟩⟩
  · have hz : writtenCount (exec D fuel (initState x) cmds).1 = 0 := by
      simp [writtenCount, hpcw, hidx]
    rw [hz]
    simpa [chunkWrites] using he
  · simpa using he

/-- C8: across any number of pause/resume toggles (and stops — anything
but a redirect), the chunks written to the device are exactly the
consecutive chunks `0..m-1` of the pass, each written once and in order
(nothing skipped, nothing written twice); and a resume delivered to a
session blocked in the pause wait releases it so that it continues with
the chunk immediately following the last one written, with the paused
flag back to false. -/
theorem C8_pause_resume_no_loss_no_dup (D x fuel : ℕ) (cmds : List Cmd)
    (s : SState) (hok : ∀ c ∈ cmds, noPlay c = true)
    (hw : s.pc = .waiting) (hp : s.paused = true) (hh : s.holder = false) :
    writesOf (sessionTrace D fuel x cmds) =
      chunkWrites D x (writtenCount (exec D fuel (initState x) cmds).1) ∧
      (writesOf (sessionTrace D fuel x cmds)).Nodup ∧
      exec D 3 s [.togglePaused, .wake] =
        ({ s with paused := false, pc := .forNext, idx := s.idx + 1,
                  holder := false }, [], []) := by
  have hmain := writes_consecutive D x fuel cmds hok
  have htr : writesOf (sessionTrace D fuel x cmds) =
      writesOf (exec D fuel (initState x) cmds).2.2 := by
    simp [sessionTrace, writesOf]
  refine ⟨htr.trans hmain, ?_, ?_⟩
  · rw [htr, hmain]; exact chunkWrites_nodup D x _
  · obtain ⟨pc, running, paused, restart, start_at, pstart, cur, idx, holder⟩ := s
    simp only at hw hp hh
    subst hw hp hh
    have e1 : stepSys D ⟨.waiting, running, true, restart, start_at, pstart, cur, idx, false⟩
        [.togglePaused, .wake] =
        (⟨.waiting, running, false, restart, start_at, pstart, cur, idx, false⟩,
          [.wake], []) := by
      simp [stepSys, ctrlEnabled, ctrlApply]
    have e2 : stepSys D ⟨.waiting, running, false, restart, start_at, pstart, cur, idx, false⟩
        [.wake] =
        (⟨.unlockStep, running, false, restart, start_at, pstart, cur, idx, true⟩,
          [], []) := by
      simp [stepSys, ctrlEnabled, ctrlApply]
    have e3 : stepSys D ⟨.unlockStep, running, false, restart, start_at, pstart, cur, idx, true⟩
        [] =
        (⟨.forNext, running, false, restart, start_at, pstart, cur, idx + 1, false⟩,
          [], []) := by
      simp [stepSys, loopStep]
    rw [show (3 : ℕ) = 1 + 2 from rfl, exec_one_cons, e1]
    rw [show (2 : ℕ) = 1 + 1 from rfl, exec_one_cons, e2]
    rw [show (1 : ℕ) = 1 + 0 from rfl, exec_one_cons, e3]
    simp [exec_zero]

/-- Witness for C8: the 100 ms session paused after its first chunk and
resumed, which writes both chunks exactly once; and a concrete blocked
state released by a resume. -/
theorem C8_pause_resume_no_loss_no_dup_witness :
    writesOf (sessionTrace 100 30 0
        [.tau, .tau, .tau, .tau, .tau, .tau, .togglePaused, .tau, .togglePaused, .wake]) =
      chunkWrites 100 0 2 ∧
      exec 100 3 ⟨.waiting, true, true, false, 0, 0, 50, 0, false⟩ [.togglePaused, .wake] =
        (⟨.forNext, true, false, false, 0, 0, 50, 1, false⟩, [], []) := by
  have h := C8_pause_resume_no_loss_no_dup 100 0 30
    [.tau, .tau, .tau, .tau, .tau, .tau, .togglePaused, .tau, .togglePaused, .wake]
    ⟨.waiting, true, true, false, 0, 0, 50, 0, false⟩ (by decide) rfl rfl rfl
  refine ⟨?_, by simpa using h.2.2⟩
  have h2 : writtenCount (exec 100 30 (initState 0)
      [.tau, .tau, .tau, .tau, .tau, .tau, .togglePaused, .tau, .togglePaused, .wake]).1 = 2 := by
    decide
  rw [h.1, h2]

/-! ## C10: behaviour after stop, amended -/

/-- Agenda entries allowed after a stop in the C10 scenario: loop
scheduling and redirects. -/
def stopOk : Cmd → Bool
  | .tau => true
  | .playAt _ => true
  | _ => false

/-- Ranking of the program points reachable in a stopped, un-paused
session. -/
def pcBase : PC → ℕ
  | .terminated => 0
  | .emitDone => 1
  | .closing => 2
  | .whileCheck => 3
  | .checkFlags => 4
  | .forNext => 5
  | _ => 6

/-- Termination measure for a stopped session: every step (a loop
micro-step, a scheduled `tau`, or a redirect) strictly decreases it. -/
def stopMeasure (s : SState) (cmds : List Cmd) : ℕ :=
  pcBase s.pc + (if s.restart then 10 else 0) + 11 * cmds.length

/-- Configuration invariant of a stopped, un-paused session. -/
def stopInv (s : SState) : Prop :=
  s.running = false ∧ s.paused = false ∧ s.holder = false ∧
    (s.pc = .whileCheck ∨ s.pc = .forNext ∨ s.pc = .checkFlags ∨
     s.pc = .closing ∨ s.pc = .emitDone ∨ s.pc = .terminated)

theorem stop_loop_dec (D : ℕ) (s : SState) (hinv : stopInv s) :
    stopInv (loopStep D s).1 ∧
    (s.pc ≠ .terminated →
      pcBase (loopStep D s).1.pc + (if (loopStep D s).1.restart then 10 else 0) <
        pcBase s.pc + (if s.restart then 10 else 0)) ∧
    (s.pc = .terminated → loopStep D s = (s, [])) := by
  obtain ⟨hr, hp, hh, hpc⟩ := hinv
  obtain ⟨pc, running, paused, restart, start_at, pstart, cur, idx, holder⟩ := s
  simp only at hr hp hh hpc
  subst hr hp hh
  rcases hpc with h | h | h | h | h | h <;> subst h
  · constructor
    · refine ⟨by simp [loopStep] <;> split_ifs <;> simp,
        by simp [loopStep] <;> split_ifs <;> simp,
        by simp [loopStep] <;> split_ifs <;> simp, ?_⟩
      by_cases hres : restart <;> simp [loopStep, hres]
    · refine ⟨fun _ => ?_, by simp⟩
      by_cases hres : restart <;> simp [loopStep, hres, pcBase]
  · constructor
    · refine ⟨by simp [loopStep] <;> split_ifs <;> simp,
        by simp [loopStep] <;> split_ifs <;> simp,
        by simp [loopStep] <;> split_ifs <;> simp, ?_⟩
      by_cases hidx : idx < numChunks (D - pstart) <;> simp [loopStep, hidx]
    · refine ⟨fun _ => ?_, by simp⟩
      by_cases hidx : idx < numChunks (D - pstart) <;>
        simp [loopStep, hidx, pcBase] <;> split_ifs <;> omega
  · exact ⟨⟨by simp [loopStep], by simp [loopStep], by simp [loopStep],
      by simp [loopStep]⟩,
      fun _ => by simp [loopStep, pcBase] <;> split_ifs <;> omega, by simp⟩
  · exact ⟨⟨by simp [loopStep], by simp [loopStep], by simp [loopStep],
      by simp [loopStep]⟩,
      fun _ => by simp [loopStep, pcBase] <;> split_ifs <;> omega, by simp⟩
  · exact ⟨⟨by simp [loopStep], by simp [loopStep], by simp [loopStep],
      by simp [loopStep]⟩,
      fun _ => by simp [loopStep, pcBase] <;> split_ifs <;> omega, by simp⟩
  · exact ⟨⟨by simp [loopStep], by simp [loopStep], by simp [loopStep],
      by simp [loopStep]⟩,
      fun h => absurd rfl h, fun _ => by simp [loopStep]⟩

theorem stop_step (D : ℕ) (s : SState) (cmds : List Cmd)
    (hinv : stopInv s) (hok : ∀ c ∈ cmds, stopOk c = true) :
    stopInv (stepSys D s cmds).1 ∧
    (∀ c ∈ (stepSys D s cmds).2.1, stopOk c = true) ∧
    (¬(s.pc = .terminated ∧ cmds = []) →
      stopMeasure (stepSys D s cmds).1 (stepSys D s cmds).2.1 <
        stopMeasure s cmds) := by
  have hd := stop_loop_dec D s hinv
  match cmds with
  | [] =>
      refine ⟨by simpa [stepSys] using hd.1, by simp [stepSys], ?_⟩
      intro hne
      have hnt : s.pc ≠ .terminated := fun hc => hne ⟨hc, rfl⟩
      have := hd.2.1 hnt
      simp only [stepSys, stopMeasure]
      omega
  | .tau :: rest =>
      refine ⟨by simpa [stepSys] using hd.1, ?_, ?_⟩
      · intro c hc; exact hok c (by simp [stepSys] at hc; simp [hc])
      · intro _
        by_cases hnt : s.pc = .terminated
        · have hfix := hd.2.2 hnt
          simp only [stepSys, stopMeasure, hfix, List.length_cons]
          omega
        · have := hd.2.1 hnt
          simp only [stepSys, stopMeasure, List.length_cons]
          omega
  | .setRunFalse :: rest =>
      exact absurd (hok .setRunFalse (by simp)) (by simp [stopOk])
  | .togglePaused :: rest =>
      exact absurd (hok .togglePaused (by simp)) (by simp [stopOk])
  | .wake :: rest =>
      exact absurd (hok .wake (by simp)) (by simp [stopOk])
  | .playAt y :: rest =>
      obtain ⟨hr, hp, hh, hpc⟩ := hinv
      refine ⟨⟨?_, ?_, ?_, ?_⟩, ?_, ?_⟩
      · simp [stepSys, ctrlEnabled, ctrlApply, hr]
      · simp [stepSys, ctrlEnabled, ctrlApply, hp]
      · simp [stepSys, ctrlEnabled, ctrlApply, hh]
      · simpa [stepSys, ctrlEnabled, ctrlApply] using hpc
      · intro c hc; exact hok c (by simp [stepSys, ctrlEnabled] at hc; simp [hc])
      · intro _
        simp only [stepSys, ctrlEnabled, ctrlApply, stopMeasure]
        simp [List.length_cons]
        split_ifs <;> omega

/-- A stopped, un-paused session terminates: with fuel equal to its
measure the loop has reached the end of `run`, however the remaining
`tau`/redirect agenda is interleaved. -/
theorem stop_halts (D : ℕ) : ∀ (n : ℕ) (s : SState) (cmds : List Cmd),
    stopMeasure s cmds ≤ n → stopInv s → (∀ c ∈ cmds, stopOk c = true) →
    (exec D n s cmds).1.pc = .terminated := by
  intro n
  induction n with
  | zero =>
      intro s cmds hm hinv hok
      rcases hinv.2.2.2 with h | h | h | h | h | h <;>
        (first
          | (rw [exec_zero]; exact h)
          | (exfalso; simp only [stopMeasure, h, pcBase] at hm;
             split_ifs at hm <;> omega))
  | succ n ih =>
      intro s cmds hm hinv hok
      by_cases ht : s.pc = .terminated
      · exact (terminated_absorb D (n + 1) s cmds ht).1
      · have hs := stop_step D s cmds hinv hok
        have hdec := hs.2.2 (fun hcon => ht hcon.1)
        rw [exec_succ]
        exact ih (stepSys D s cmds).1 (stepSys D s cmds).2.1 (by omega) hs.1 hs.2.1

/-- C10 (amended): from any per-chunk check reached with the running
flag already cleared (and the session not paused), no chunk is ever
written again — every subsequent check breaks before the write, even if
redirects keep setting the restart flag — and once the finite stream of
intents is exhausted the outer restart loop terminates. -/
theorem C10_amended_stop_stops_writes (D fuel : ℕ) (cmds : List Cmd) (s : SState)
    (hrun : s.running = false) (hpc : s.pc = .checkFlags)
    (hpause : s.paused = false) (hh : s.holder = false)
    (hok : ∀ c ∈ cmds, stopOk c = true) :
    writesOf (exec D fuel s cmds).2.2 = [] ∧
      (exec D (stopMeasure s cmds) s cmds).1.pc = .terminated := by
  constructor
  · have key := exec_preserve D
      (fun s tr => s.running = false ∧ s.pc ≠ .writeChunk ∧ writesOf tr = [])
      (fun _ => True)
      (by
        intro s tr c _ hP
        obtain ⟨h1, h2, h3⟩ := hP
        cases c
        case wake =>
            by_cases hw : s.pc = .waiting
            · exact ⟨by simp [ctrlApply, hw, h1], by simp [ctrlApply, hw], h3⟩
            · have heq : ctrlApply s Cmd.wake = s := by simp [ctrlApply, hw]
              rw [heq]; exact ⟨h1, h2, h3⟩
        case setRunFalse => exact ⟨rfl, h2, h3⟩
        all_goals exact ⟨h1, h2, h3⟩)
      (by
        intro s tr hP
        obtain ⟨h1, h2, h3⟩ := hP
        cases hpc' : s.pc
        case writeChunk => exact absurd hpc' h2
        case whileCheck =>
            refine ⟨?_, ?_, ?_⟩ <;>
              (simp only [loopStep, hpc']; split_ifs <;> simp [h1, h3])
        case forNext =>
            refine ⟨?_, ?_, ?_⟩ <;>
              (simp only [loopStep, hpc']; split_ifs <;> simp [h1, h3])
        case checkPaused =>
            refine ⟨?_, ?_, ?_⟩ <;>
              (simp only [loopStep, hpc']; split_ifs <;> simp [h1, h3])
        all_goals (
          refine ⟨?_, ?_, ?_⟩ <;>
            simp [loopStep, hpc', h1, h3, writesOf_append,
              writesOf_tick1, writesOf_close1, writesOf_done1]))
      fuel s cmds [] (by intro c _; trivial)
      ⟨hrun, by rw [hpc]; simp, by simp [writesOf]⟩
    simpa using key.2.2
  · exact stop_halts D (stopMeasure s cmds) s cmds le_rfl
      ⟨hrun, hpause, hh, Or.inr (Or.inr (Or.inl hpc))⟩ hok

/-- Witness for C10's amended theorem: a stopped session at a per-chunk
check, redirected twice more, writes nothing and terminates. -/
theorem C10_amended_stop_stops_writes_witness :
    writesOf (exec 100 40 ⟨.checkFlags, false, false, false, 0, 0, 0, 0, false⟩
        [.playAt 70, .tau, .playAt 0]).2.2 = [] ∧
      (exec 100 (stopMeasure ⟨.checkFlags, false, false, false, 0, 0, 0, 0, false⟩
          [.playAt 70, .tau, .playAt 0])
        ⟨.checkFlags, false, false, false, 0, 0, 0, 0, false⟩
        [.playAt 70, .tau, .playAt 0]).1.pc = .terminated := by
  have h := C10_amended_stop_stops_writes 100 40 [.playAt 70, .tau, .playAt 0]
    ⟨.checkFlags, false, false, false, 0, 0, 0, 0, false⟩ rfl rfl rfl rfl (by decide)
  exact h

/-! ## C3 amended: the actual locking discipline -/

/-- Along any execution, the loop thread holds the session mutex only
across the `pause_cond.wait` call (between `mutex.lock()` and the wait's
internal release, and between the wait's return and `mutex.unlock()`). -/
theorem holder_only_around_wait (D fuel x : ℕ) (cmds : List Cmd)
    (hh : (exec D fuel (initState x) cmds).1.holder = true) :
    (exec D fuel (initState x) cmds).1.pc = .waitStep ∨
      (exec D fuel (initState x) cmds).1.pc = .unlockStep := by
  have key := exec_preserve D
    (fun s _ => s.holder = true → s.pc = .waitStep ∨ s.pc = .unlockStep)
    (fun _ => True)
    (by
      intro s tr c _ hP
      cases c
      case wake =>
          by_cases hw : s.pc = .waiting
          · intro _; right; simp [ctrlApply, hw]
          · have heq : ctrlApply s Cmd.wake = s := by simp [ctrlApply, hw]
            rw [heq]; exact hP
      all_goals exact hP)
    (by
      intro s tr hP
      cases hpc' : s.pc
      case lockStep => simp [loopStep, hpc']
      case waitStep => simp [loopStep, hpc']
      case unlockStep => simp [loopStep, hpc']
      case waiting => simpa [loopStep, hpc'] using hP
      all_goals (
        (simp only [loopStep, hpc']; try split_ifs) <;>
          (intro hold
           rcases hP hold with h | h <;> (rw [hpc'] at h; simp at h))))
    fuel (initState x) cmds [] (by intro c _; trivial)
    (by simp [initState])
  exact key hh

/-- C3 (amended): in the source none of the control-thread flag
mutations (`play_at`, `pause`, `stop`) takes the session mutex — they
are always enabled and leave the mutex untouched; only the `wakeAll`
broadcasts in `sound_stop`/`sound_pause` run under the mutex (blocking
exactly while the loop holds it for the wait); the loop itself holds
the mutex only across the wait call, and reads the flags without it —
which is why a signal can be lost between its paused check and the
wait. -/
theorem C3_amended_unlocked_flag_mutations (D x fuel : ℕ) (cmds : List Cmd)
    (s : SState) (c : Cmd) (hm : mutatesFlags c = true)
    (hh : (exec D fuel (initState x) cmds).1.holder = true) :
    ctrlEnabled s c = true ∧
      (ctrlApply s c).holder = s.holder ∧
      usesMutex c = false ∧
      usesMutex Cmd.wake = true ∧
      ctrlEnabled s Cmd.wake = !s.holder ∧
      ((exec D fuel (initState x) cmds).1.pc = .waitStep ∨
       (exec D fuel (initState x) cmds).1.pc = .unlockStep) := by
  refine ⟨?_, ?_, ?_, rfl, rfl, holder_only_around_wait D fuel x cmds hh⟩ <;>
    cases c <;> simp_all [mutatesFlags, ctrlEnabled, ctrlApply, usesMutex]

/-- Interleaving that parks the loop inside `pause_cond.wait` while it
holds / releases the mutex: five loop steps, a pause, the paused check,
then `mutex.lock()`. -/
def c3WitnessAgenda : List Cmd :=
  [.tau, .tau, .tau, .tau, .tau, .togglePaused, .tau, .tau]

/-- Witness for C3's amended theorem: concrete reachable configuration
with the mutex held, and the `stop()` mutation evaluated there. -/
theorem C3_amended_unlocked_flag_mutations_witness :
    mutatesFlags Cmd.setRunFalse = true ∧
      (exec 100 8 (initState 0) c3WitnessAgenda).1.holder = true ∧
      (ctrlEnabled (initState 0) Cmd.setRunFalse = true ∧
        (ctrlApply (initState 0) Cmd.setRunFalse).holder = (initState 0).holder ∧
        usesMutex Cmd.setRunFalse = false ∧
        usesMutex Cmd.wake = true ∧
        ctrlEnabled (initState 0) Cmd.wake = !(initState 0).holder ∧
        ((exec 100 8 (initState 0) c3WitnessAgenda).1.pc = .waitStep ∨
         (exec 100 8 (initState 0) c3WitnessAgenda).1.pc = .unlockStep)) :=
  ⟨by decide, by decide,
    C3_amended_unlocked_flag_mutations 100 0 8 c3WitnessAgenda
      (initState 0) Cmd.setRunFalse (by decide) (by decide)⟩

/-! ## C5: progress ticks of an undisturbed run -/

/-- One undisturbed pass: starting at chunk `idx` with `k` chunks left,
the loop writes and ticks each remaining chunk in order and then runs
the closing sequence. -/
theorem runPass (D x : ℕ) : ∀ k idx : ℕ, idx + k = numChunks (D - x) →
    exec D (5 * k + 4)
        ⟨.forNext, true, false, false, x, x, x + chunkMs * idx, idx, false⟩ [] =
      (⟨.terminated, true, false, false, x, x,
          x + chunkMs * numChunks (D - x), numChunks (D - x), false⟩, [],
        passEvs D x k idx ++ [Ev.closeDev, Ev.done]) := by
  intro k
  induction k with
  | zero =>
      intro idx hidx
      simp only [Nat.add_zero] at hidx
      subst hidx
      have e1 : stepSys D ⟨.forNext, true, false, false, x, x,
          x + chunkMs * numChunks (D - x), numChunks (D - x), false⟩ [] =
          (⟨.whileCheck, true, false, false, x, x,
            x + chunkMs * numChunks (D - x), numChunks (D - x), false⟩, [], []) := by
        simp [stepSys, loopStep]
      have e2 : stepSys D ⟨.whileCheck, true, false, false, x, x,
          x + chunkMs * numChunks (D - x), numChunks (D - x), false⟩ [] =
          (⟨.closing, true, false, false, x, x,
            x + chunkMs * numChunks (D - x), numChunks (D - x), false⟩, [], []) := by
        simp [stepSys, loopStep]
      have e3 : stepSys D ⟨.closing, true, false, false, x, x,
          x + chunkMs * numChunks (D - x), numChunks (D - x), false⟩ [] =
          (⟨.emitDone, true, false, false, x, x,
            x + chunkMs * numChunks (D - x), numChunks (D - x), false⟩, [],
            [Ev.closeDev]) := by
        simp [stepSys, loopStep]
      have e4 : stepSys D ⟨.emitDone, true, false, false, x, x,
          x + chunkMs * numChunks (D - x), numChunks (D - x), false⟩ [] =
          (⟨.terminated, true, false, false, x, x,
            x + chunkMs * numChunks (D - x), numChunks (D - x), false⟩, [],
            [Ev.done]) := by
        simp [stepSys, loopStep]
      rw [show 5 * 0 + 4 = 1 + 3 from rfl, exec_one_cons, e1]
      rw [show (3 : ℕ) = 1 + 2 from rfl, exec_one_cons, e2]
      rw [show (2 : ℕ) = 1 + 1 from rfl, exec_one_cons, e3]
      rw [show (1 : ℕ) = 1 + 0 from rfl, exec_one_cons, e4]
      simp [exec_zero, passEvs]
  | succ k ih =>
      intro idx hidx
      have hlt : idx < numChunks (D - x) := by omega
      have e1 : stepSys D ⟨.forNext, true, false, false, x, x,
          x + chunkMs * idx, idx, false⟩ [] =
          (⟨.checkFlags, true, false, false, x, x,
            x + chunkMs * idx, idx, false⟩, [], []) := by
        simp [stepSys, loopStep, hlt]
      have e2 : stepSys D ⟨.checkFlags, true, false, false, x, x,
          x + chunkMs * idx, idx, false⟩ [] =
          (⟨.writeChunk, true, false, false, x, x,
            x + chunkMs * idx, idx, false⟩, [], []) := by
        simp [stepSys, loopStep]
      have e3 : stepSys D ⟨.writeChunk, true, false, false, x, x,
          x + chunkMs * idx, idx, false⟩ [] =
          (⟨.emitTick, true, false, false, x, x,
            x + chunkMs * idx, idx, false⟩, [],
            [Ev.write (x + chunkMs * idx) (chunkSize (D - x) idx)]) := by
        simp [stepSys, loopStep]
      have e4 : stepSys D ⟨.emitTick, true, false, false, x, x,
          x + chunkMs * idx, idx, false⟩ [] =
          (⟨.checkPaused, true, false, false, x, x,
            x + chunkMs * idx + chunkMs, idx, false⟩, [],
            [Ev.tick (x + chunkMs * idx + chunkMs)]) := by
        simp [stepSys, loopStep]
      have e5 : stepSys D ⟨.checkPaused, true, false, false, x, x,
          x + chunkMs * idx + chunkMs, idx, false⟩ [] =
          (⟨.forNext, true, false, false, x, x,
            x + chunkMs * idx + chunkMs, idx + 1, false⟩, [], []) := by
        simp [stepSys, loopStep]
      have hcur : x + chunkMs * idx + chunkMs = x + chunkMs * (idx + 1) := by
        rw [Nat.mul_succ, Nat.add_assoc]
      rw [show 5 * (k + 1) + 4 = 1 + (1 + (1 + (1 + (1 + (5 * k + 4))))) by ring]
      rw [exec_one_cons, e1, exec_one_cons, e2, exec_one_cons, e3,
        exec_one_cons, e4, exec_one_cons, e5, hcur]
      rw [ih (idx + 1) (by omega)]
      simp [passEvs, hcur]

theorem ticksOf_cons_write (p l : ℕ) (tr : List Ev) :
    ticksOf (Ev.write p l :: tr) = ticksOf tr := rfl

theorem ticksOf_cons_tick (t : ℕ) (tr : List Ev) :
    ticksOf (Ev.tick t :: tr) = t :: ticksOf tr := rfl

/-- The tick payloads of an undisturbed pass over chunks
`idx, ..., idx+k-1`. -/
theorem ticksOf_passEvs (D x : ℕ) : ∀ k idx : ℕ,
    ticksOf (passEvs D x k idx) =
      (List.range k).map (fun j => x + chunkMs * (idx + j + 1)) := by
  intro k
  induction k with
  | zero => intro idx; simp [passEvs, ticksOf]
  | succ k ih =>
      intro idx
      rw [show passEvs D x (k + 1) idx =
            Ev.write (x + chunkMs * idx) (chunkSize (D - x) idx)
              :: Ev.tick (x + chunkMs * (idx + 1)) :: passEvs D x k (idx + 1)
          from rfl]
      rw [ticksOf_cons_write, ticksOf_cons_tick, ih (idx + 1)]
      rw [List.range_succ_eq_map]
      simp only [List.map_cons, List.map_map]
      refine congrArg₂ List.cons (by simp) ?_
      refine List.map_congr_left ?_
      intro a _
      simp only [Function.comp_apply, chunkMs]
      omega

/-- An undisturbed pass emits no completion event. -/
theorem done_not_in_passEvs (D x : ℕ) : ∀ k idx : ℕ,
    Ev.done ∉ passEvs D x k idx := by
  intro k
  induction k with
  | zero => intro idx; simp [passEvs]
  | succ k ih => intro idx; simp [passEvs]; exact ih (idx + 1)

/-- C5: for an in-range offset and no further control intents, the chunk
duration is the constant 50 ms (within the spec's 50–100 ms band), the
run's progress ticks are exactly `x + k·chunkMs` for `k = 1..n` — so
strictly increasing, starting one chunk after `x` — the last tick lands
within one chunk duration at or beyond the audio duration, and the run
ends with exactly one completion notification. -/
theorem C5_progress_ticks_monotone (D x : ℕ) (hx : x < D) :
    (50 ≤ chunkMs ∧ chunkMs ≤ 100) ∧
      sessionTrace D (5 * numChunks (D - x) + 5) x [] =
        Ev.openDev :: (passEvs D x (numChunks (D - x)) 0 ++ [Ev.closeDev, Ev.done]) ∧
      ticksOf (sessionTrace D (5 * numChunks (D - x) + 5) x []) =
        (List.range (numChunks (D - x))).map (fun k => x + chunkMs * (k + 1)) ∧
      List.Pairwise (· < ·)
        (ticksOf (sessionTrace D (5 * numChunks (D - x) + 5) x [])) ∧
      (D ≤ x + chunkMs * numChunks (D - x) ∧
        x + chunkMs * numChunks (D - x) < D + chunkMs) ∧
      (sessionTrace D (5 * numChunks (D - x) + 5) x []).count Ev.done = 1 := by
  have e0 : stepSys D (initState x) [] =
      (⟨.forNext, true, false, false, x, x, x + chunkMs * 0, 0, false⟩, [], []) := by
    simp [stepSys, loopStep, initState]
  have hrun : exec D (5 * numChunks (D - x) + 5) (initState x) [] =
      (⟨.terminated, true, false, false, x, x,
          x + chunkMs * numChunks (D - x), numChunks (D - x), false⟩, [],
        passEvs D x (numChunks (D - x)) 0 ++ [Ev.closeDev, Ev.done]) := by
    rw [show 5 * numChunks (D - x) + 5 = 1 + (5 * numChunks (D - x) + 4) by ring]
    rw [exec_one_cons, e0]
    rw [runPass D x (numChunks (D - x)) 0 (by omega)]
    simp
  have hTr : sessionTrace D (5 * numChunks (D - x) + 5) x [] =
      Ev.openDev :: (passEvs D x (numChunks (D - x)) 0 ++ [Ev.closeDev, Ev.done]) := by
    simp [sessionTrace, hrun]
  have hticks : ticksOf (sessionTrace D (5 * numChunks (D - x) + 5) x []) =
      (List.range (numChunks (D - x))).map (fun k => x + chunkMs * (k + 1)) := by
    rw [hTr]
    simp only [ticksOf, List.filterMap_cons, List.filterMap_append]
    rw [show List.filterMap
          (fun e => match e with | Ev.tick t => some t | _ => none)
          (passEvs D x (numChunks (D - x)) 0) =
        (List.range (numChunks (D - x))).map (fun j => x + chunkMs * (0 + j + 1)) from
      ticksOf_passEvs D x (numChunks (D - x)) 0]
    simp
  refine ⟨by decide, hTr, hticks, ?_, ?_, ?_⟩
  · rw [hticks]
    exact (List.pairwise_lt_range _).map _
      (by intro a b hab; simp only [chunkMs]; omega)
  · have hm : 1 ≤ D - x := by omega
    have hdm := Nat.div_add_mod (D - x + 49) 50
    have hmod : (D - x + 49) % 50 < 50 := Nat.mod_lt _ (by norm_num)
    have hD : D = x + (D - x) := by omega
    simp only [numChunks, chunkMs]
    omega
  · rw [hTr]
    have hnd := done_not_in_passEvs D x (numChunks (D - x)) 0
    simp [List.count_append, List.count_cons, List.count_eq_zero.mpr hnd]

/-- Witness for C5: the 2-channel 44100 Hz scenario — a 4000 ms audio
played from 1000 ms, 60 chunks. -/
theorem C5_progress_ticks_monotone_witness :
    (50 ≤ chunkMs ∧ chunkMs ≤ 100) ∧
      ticksOf (sessionTrace 4000 (5 * numChunks (4000 - 1000) + 5) 1000 []) =
        (List.range (numChunks (4000 - 1000))).map (fun k => 1000 + chunkMs * (k + 1)) ∧
      (4000 ≤ 1000 + chunkMs * numChunks (4000 - 1000) ∧
        1000 + chunkMs * numChunks (4000 - 1000) < 4000 + chunkMs) ∧
      (sessionTrace 4000 (5 * numChunks (4000 - 1000) + 5) 1000 []).count Ev.done = 1 := by
  have h := C5_progress_ticks_monotone 4000 1000 (by decide)
  exact ⟨h.1, h.2.2.1, h.2.2.2.2.1, h.2.2.2.2.2⟩

end SigProc
